import Mathlib

/-!
Verification of the friendship state machine and authorization gate of the
GroFriends web application (Server.js).

The embedding models the SQLite tables as lists of rows inside a `Store`
record, and each HTTP handler body (after request parsing and session
authentication) as a pure function on the store.  SQL queries are translated
statement by statement: `SELECT ... WHERE` becomes `List.find?`/`List.filter`,
`INSERT` appends a row with the next AUTOINCREMENT id, `UPDATE` maps over the
rows, `DELETE` filters them, and `ORDER BY id DESC` is `List.mergeSort` with
the descending-id comparator.  Timestamps (`created_at` columns, filled from
`nowISO()`) are threaded as opaque strings.
-/

namespace Web

/-- Friendship status column; the code only ever writes "pending" and
"accepted". -/
inductive FStatus where
  | pending
  | accepted
deriving DecidableEq, Repr

/-- Row of the `users` table (columns the friendship core reads). -/
structure User where
  id : Nat
  email : String
  name : String
deriving DecidableEq, Repr

/-- Row of the `friendships` table. -/
structure Friendship where
  id : Nat
  user_a : Nat
  user_b : Nat
  status : FStatus
  requested_by : Nat
  created_at : String
deriving DecidableEq, Repr

/-- Row of the `goals` table. -/
structure Goal where
  id : Nat
  user_id : Nat
  title : String
  target_date : Option String
  is_public : Bool
  created_at : String
deriving DecidableEq, Repr

/-- Row of the `feed_posts` table. -/
structure FeedPost where
  id : Nat
  user_id : Nat
  goal_id : Option Nat
  content : String
  created_at : String
deriving DecidableEq, Repr

/-- Row of the `dms` table. -/
structure DirectMessage where
  id : Nat
  sender_id : Nat
  receiver_id : Nat
  text : String
  created_at : String
deriving DecidableEq, Repr

/-- The database state: one list per table (in rowid order, i.e. insertion
order), plus the next AUTOINCREMENT id for the tables the modelled handlers
insert into. -/
structure Store where
  users : List User
  friendships : List Friendship
  goals : List Goal
  feed_posts : List FeedPost
  dms : List DirectMessage
  next_friendship_id : Nat
  next_feed_id : Nat
  next_dm_id : Nat
deriving DecidableEq, Repr

/-- Error taxonomy of the handlers: HTTP 404 is `NotFound`, 400 is
`InvalidOperation` (self-invite, malformed email, zero/missing numeric id),
409 is `Conflict`, 403 is `Forbidden`. -/
inductive ApiErr where
  | NotFound
  | InvalidOperation
  | Conflict
  | Forbidden
deriving DecidableEq, Repr

/-- `function canonicalPair(a, b) { a=+a; b=+b; return a<b ? [a,b] : [b,a]; }` -/
def canonicalPair (a b : Nat) : Nat × Nat :=
  if a < b then (a, b) else (b, a)

/-- `SELECT * FROM friendships WHERE user_a=? AND user_b=?` (qFindFriendship). -/
def qFindFriendship (s : Store) (a b : Nat) : Option Friendship :=
  s.friendships.find? (fun f => decide (f.user_a = a ∧ f.user_b = b))

/-- `SELECT * FROM friendships WHERE id=?` (inline lookup in the accept and
cancel/remove handlers). -/
def qFriendshipById (s : Store) (fid : Nat) : Option Friendship :=
  s.friendships.find? (fun f => decide (f.id = fid))

/-- `SELECT id, email, name FROM users WHERE email=?` (qFindUserByEmailPublic). -/
def qFindUserByEmailPublic (s : Store) (email : String) : Option User :=
  s.users.find? (fun u => decide (u.email = email))

/-- `SELECT id, email, name, ... FROM users WHERE id=?` (qFindUserPublicById). -/
def qFindUserPublicById (s : Store) (id : Nat) : Option User :=
  s.users.find? (fun u => decide (u.id = id))

/-- A character admitted by the `[^\s@]` classes of the email regular
expression: neither whitespace nor `@`. -/
def isEmailChar (c : Char) : Bool :=
  !c.isWhitespace && decide (c ≠ '@')

/-- Splitting a character list on a separator character (the list-level
counterpart of splitting a string on `@`). -/
def splitOnChar (sep : Char) (l : List Char) : List (List Char) :=
  l.foldr (fun c acc =>
    match acc with
    | [] => [[c]]
    | a :: rest => if c = sep then [] :: (a :: rest) else (c :: a) :: rest) [[]]

/-- The domain part must match `[^\s@]+\.[^\s@]+`: some `.` occurs with at
least one character before it and one after it. -/
def hasInteriorDot (d : List Char) : Bool :=
  ((d.drop 1).dropLast).any (fun c => decide (c = '.'))

/-- `function isValidEmail(email) { return /^[^\s@]+@[^\s@]+\.[^\s@]+$/.test(email); }`
The anchored regular expression matches exactly the strings of the shape
`local@domain` with exactly one `@`, a nonempty `local` of non-whitespace
non-`@` characters, and a `domain` of such characters containing an interior
dot. -/
def isValidEmail (e : String) : Bool :=
  match splitOnChar '@' e.data with
  | [localPart, domain] =>
      !localPart.isEmpty && localPart.all isEmailChar &&
        domain.all isEmailChar && hasInteriorDot domain
  | _ => false

/-- JavaScript `String.prototype.trim`: strip leading and trailing whitespace
(modelled character-wise). -/
def trimString (s : String) : String :=
  ⟨((s.data.dropWhile Char.isWhitespace).reverse.dropWhile
      Char.isWhitespace).reverse⟩

/-- JavaScript `String.prototype.toLowerCase` (modelled character-wise). -/
def toLowerString (s : String) : String :=
  ⟨s.data.map Char.toLower⟩

/-- The invite handler's email normalization: `(b.email || "").trim().toLowerCase()`. -/
def normEmail (e : String) : String :=
  toLowerString (trimString e)

/-- POST `/friends/invite` handler body (after authentication), for
authenticated user `requester`:
email normalization and validation, target lookup by email (404), self-invite
rejection (400), canonical-pair lookup (409 on an existing row), otherwise
`INSERT INTO friendships` a pending row with `requested_by` = requester. -/
def invite (s : Store) (requester : Nat) (rawEmail : String) (now : String) :
    Except ApiErr Store :=
  let email := normEmail rawEmail
  if decide (email = "") || !isValidEmail email then
    .error .InvalidOperation
  else
    match qFindUserByEmailPublic s email with
    | none => .error .NotFound
    | some other =>
      if other.id = requester then .error .InvalidOperation
      else
        let p := canonicalPair requester other.id
        match qFindFriendship s p.1 p.2 with
        | some _ => .error .Conflict
        | none =>
          .ok { s with
                friendships := s.friendships ++
                  [⟨s.next_friendship_id, p.1, p.2, .pending, requester, now⟩],
                next_friendship_id := s.next_friendship_id + 1 }

/-- POST `/friends/accept` handler body for authenticated user `u`:
zero id rejected (400), row lookup by id (404), party check (403), then
`UPDATE friendships SET status='accepted' WHERE id=?`. -/
def accept (s : Store) (u fid : Nat) : Except ApiErr Store :=
  if fid = 0 then .error .InvalidOperation
  else
    match qFriendshipById s fid with
    | none => .error .NotFound
    | some row =>
      if row.user_a ≠ u ∧ row.user_b ≠ u then .error .Forbidden
      else
        .ok { s with
              friendships := s.friendships.map (fun f =>
                if f.id = fid then { f with status := .accepted } else f) }

/-- POST `/friends/cancel` and `/friends/remove` handler body for
authenticated user `u`: zero id rejected (400), row lookup by id (404), party
check (403), then `DELETE FROM friendships WHERE id=?`. -/
def remove (s : Store) (u fid : Nat) : Except ApiErr Store :=
  if fid = 0 then .error .InvalidOperation
  else
    match qFriendshipById s fid with
    | none => .error .NotFound
    | some row =>
      if row.user_a ≠ u ∧ row.user_b ≠ u then .error .Forbidden
      else
        .ok { s with
              friendships := s.friendships.filter (fun f => decide (f.id ≠ fid)) }

/-- The authorization gate repeated inline in the `/dm`, `/dm/send` and
`/users/:id/profile` handlers:
`const [a,b] = canonicalPair(u.id, friend_id); const f = qFindFriendship.get(a, b);`
and the guard `!f || f.status !== "accepted"`.  `areFriends` is the spec's
name for the predicate "a row exists for the canonical pair and is accepted". -/
def areFriends (s : Store) (u v : Nat) : Bool :=
  let p := canonicalPair u v
  match qFindFriendship s p.1 p.2 with
  | some f => decide (f.status = FStatus.accepted)
  | none => false

/-- `function clamp(n, min, max)` restricted to the numeric case. -/
def clamp (n lo hi : Nat) : Nat :=
  min (max n lo) hi

/-- The descending-id comparator used to model `ORDER BY id DESC`. -/
def dmIdDesc (x y : DirectMessage) : Bool :=
  decide (y.id ≤ x.id)

/-- GET `/dm?friend_id=...` handler body for authenticated user `u`:
missing/zero friend id (400), friendship gate (403), then `qListDM`
(`WHERE (sender_id=@me AND receiver_id=@friend) OR (sender_id=@friend AND
receiver_id=@me) ORDER BY id DESC LIMIT @limit OFFSET @offset`), with the
limit clamped into [1,100] and the offset into [0,1000000]. -/
def dmList (s : Store) (u friend_id : Nat) (limit offset : Nat) :
    Except ApiErr (List DirectMessage) :=
  if friend_id = 0 then .error .InvalidOperation
  else if !areFriends s u friend_id then .error .Forbidden
  else
    .ok ((((s.dms.filter (fun m =>
        decide ((m.sender_id = u ∧ m.receiver_id = friend_id) ∨
                (m.sender_id = friend_id ∧ m.receiver_id = u)))).mergeSort
          dmIdDesc).drop (clamp offset 0 1000000)).take (clamp limit 1 100))

/-- POST `/dm/send` handler body for authenticated user `u`: missing friend id
or empty (trimmed) text (400), friendship gate (403), then `INSERT INTO dms`. -/
def dmSend (s : Store) (u friend_id : Nat) (rawText now : String) :
    Except ApiErr Store :=
  let text := trimString rawText
  if decide (friend_id = 0) || decide (text = "") then .error .InvalidOperation
  else if !areFriends s u friend_id then .error .Forbidden
  else
    .ok { s with
          dms := s.dms ++ [⟨s.next_dm_id, u, friend_id, text, now⟩],
          next_dm_id := s.next_dm_id + 1 }

/-- Payload of a successful GET `/users/:id/profile` response: the user row,
the target's public goals (`WHERE user_id=? AND is_public=1 ORDER BY id DESC
LIMIT 10`) and the target's recent feed posts (`WHERE user_id=? ORDER BY id
DESC LIMIT 10`; the aggregate like/comment counts of that query are
projections over tables no modelled handler writes and are omitted). -/
structure ProfileView where
  profile : User
  goals : List Goal
  feed : List FeedPost
deriving DecidableEq, Repr

/-- The descending-id comparator on goals. -/
def goalIdDesc (x y : Goal) : Bool :=
  decide (y.id ≤ x.id)

/-- The descending-id comparator on feed posts. -/
def feedIdDesc (x y : FeedPost) : Bool :=
  decide (y.id ≤ x.id)

/-- The target's public goals as selected by the profile handler:
`SELECT id, title, target_date FROM goals WHERE user_id=? AND is_public=1
ORDER BY id DESC LIMIT 10`. -/
def publicGoalsOf (s : Store) (target : Nat) : List Goal :=
  ((s.goals.filter (fun g =>
      decide (g.user_id = target) && g.is_public)).mergeSort goalIdDesc).take 10

/-- The target's recent feed posts as selected by the profile handler
(`qListFeedByUser` with limit 10 offset 0). -/
def recentFeedOf (s : Store) (target : Nat) : List FeedPost :=
  ((s.feed_posts.filter (fun f =>
      decide (f.user_id = target))).mergeSort feedIdDesc).take 10

/-- GET `/users/:id/profile` handler body for authenticated user `u` and path
id `target`: zero id (400), then the friendship gate (403), then the user
lookup (404), then the payload.  Note the gate runs before the existence
check. -/
def profileView (s : Store) (u target : Nat) : Except ApiErr ProfileView :=
  if target = 0 then .error .InvalidOperation
  else if !areFriends s u target then .error .Forbidden
  else
    match qFindUserPublicById s target with
    | none => .error .NotFound
    | some p => .ok ⟨p, publicGoalsOf s target, recentFeedOf s target⟩

/-- One entry of the GET `/friends` response: the `qListFriendsRaw` row
(friendship columns plus the joined other party) with the handler's
`can_accept` annotation. -/
structure FriendEntry where
  id : Nat
  friend_id : Nat
  friend_name : String
  friend_email : String
  status : FStatus
  requested_by : Nat
  can_accept : Bool
deriving DecidableEq, Repr

/-- The descending-id comparator on friendships. -/
def friendshipIdDesc (x y : Friendship) : Bool :=
  decide (y.id ≤ x.id)

/-- The other party of a friendship row from `me`'s perspective:
`CASE WHEN f.user_a = @me THEN f.user_b ELSE f.user_a END`. -/
def otherParty (me : Nat) (f : Friendship) : Nat :=
  if f.user_a = me then f.user_b else f.user_a

/-- The join-and-annotate step of the `/friends` handler for one row: the
`JOIN users u ON u.id = CASE ... END` (`users.id` is the primary key, so the
id lookup is the join, and a row whose other party has no users row is
dropped) together with the handler's annotation
`can_accept = (status === "pending" && requested_by !== me)`. -/
def friendAnnotate (s : Store) (me : Nat) (f : Friendship) : Option FriendEntry :=
  (qFindUserPublicById s (otherParty me f)).map (fun fr =>
    ⟨f.id, otherParty me f, fr.name, fr.email, f.status, f.requested_by,
     decide (f.status = FStatus.pending ∧ f.requested_by ≠ me)⟩)

/-- GET `/friends` handler body for authenticated user `me`: `qListFriendsRaw`
(`WHERE user_a=@me OR user_b=@me`, inner `JOIN users` on the other party's id,
`ORDER BY f.id DESC`) mapped through the handler's annotation. -/
def listFriends (s : Store) (me : Nat) : List FriendEntry :=
  ((s.friendships.filter (fun f =>
      decide (f.user_a = me ∨ f.user_b = me))).mergeSort
        friendshipIdDesc).filterMap (friendAnnotate s me)

/-- POST `/goals/:id/publish` handler body for authenticated user `u` and path
id `gid`: zero id (400); `UPDATE goals SET is_public=1 WHERE id=? AND
user_id=?`; then `SELECT title FROM goals WHERE id=? AND user_id=?` and, only
when that returns a row, `INSERT INTO feed_posts` the announcement post.  The
response is 200 ok in every non-400 case. -/
def publishGoal (s : Store) (u gid : Nat) (now : String) : Except ApiErr Store :=
  if gid = 0 then .error .InvalidOperation
  else
    let s1 := { s with
                goals := s.goals.map (fun (g : Goal) =>
                  if g.id = gid ∧ g.user_id = u then { g with is_public := true }
                  else g) }
    match s1.goals.find? (fun g => decide (g.id = gid ∧ g.user_id = u)) with
    | some g =>
      .ok { s1 with
            feed_posts := s1.feed_posts ++
              [(⟨s1.next_feed_id, u, some gid, "New goal: " ++ g.title, now⟩ : FeedPost)],
            next_feed_id := s1.next_feed_id + 1 }
    | none => .ok s1

/-- The friendship-mutating operations a client can drive the store through. -/
inductive Op where
  | invite (requester : Nat) (email : String) (now : String)
  | accept (user fid : Nat)
  | remove (user fid : Nat)

/-- Executing one operation: on an error response the store is unchanged
(every handler error path returns before any write). -/
def execOp (s : Store) : Op → Store
  | .invite r e now =>
    match invite s r e now with
    | .ok s' => s'
    | .error _ => s
  | .accept u fid =>
    match accept s u fid with
    | .ok s' => s'
    | .error _ => s
  | .remove u fid =>
    match remove s u fid with
    | .ok s' => s'
    | .error _ => s

/-- Executing a sequence of operations, oldest first. -/
def execOps (s : Store) (ops : List Op) : Store :=
  ops.foldl execOp s

/-! ## Store invariants

These mirror the guarantees of the SQLite schema: `id INTEGER PRIMARY KEY
AUTOINCREMENT` (distinct positive row ids, all below the next AUTOINCREMENT
value) and `UNIQUE(user_a, user_b)`, plus the canonical orientation every
insert routes through `canonicalPair`. -/

/-- Every friendship row is canonically ordered: `user_a < user_b`. -/
def CanonicalRows (s : Store) : Prop :=
  ∀ f ∈ s.friendships, f.user_a < f.user_b

/-- The `UNIQUE(user_a, user_b)` constraint: no two rows share a pair. -/
def UniquePairs (s : Store) : Prop :=
  s.friendships.Pairwise (fun f g => f.user_a ≠ g.user_a ∨ f.user_b ≠ g.user_b)

/-- Primary-key uniqueness on `friendships.id`. -/
def UniqueIds (s : Store) : Prop :=
  s.friendships.Pairwise (fun f g => f.id ≠ g.id)

/-- All row ids are below the next AUTOINCREMENT value. -/
def FreshIds (s : Store) : Prop :=
  ∀ f ∈ s.friendships, f.id < s.next_friendship_id

/-- The friendship-table well-formedness invariant. -/
def Wf (s : Store) : Prop :=
  CanonicalRows s ∧ UniquePairs s ∧ UniqueIds s ∧ FreshIds s ∧
    0 < s.next_friendship_id ∧ ∀ f ∈ s.friendships, 0 < f.id

/-! ## Generic list helpers -/

theorem find?_eq_some_of_unique {α : Type} {p : α → Bool} {l : List α} {x : α}
    (hx : x ∈ l) (hpx : p x = true) (huniq : ∀ y ∈ l, p y = true → y = x) :
    l.find? p = some x := by
  induction l with
  | nil => cases hx
  | cons a l ih =>
    by_cases ha : p a = true
    · have hax : a = x := huniq a (List.mem_cons_self a l) ha
      rw [List.find?_cons_of_pos _ ha, hax]
    · have hax : a ≠ x := fun h => ha (h ▸ hpx)
      have hx' : x ∈ l := by
        rcases List.mem_cons.mp hx with h | h
        · exact absurd h.symm hax
        · exact h
      rw [List.find?_cons_of_neg _ ha]
      exact ih hx' (fun y hy hpy => huniq y (List.mem_cons_of_mem _ hy) hpy)

/-! ## Lookup characterizations under the invariants -/

/-- Under pair uniqueness, two rows with the same pair are the same row. -/
theorem pair_unique_mem {s : Store} (h : UniquePairs s) {f g : Friendship}
    (hf : f ∈ s.friendships) (hg : g ∈ s.friendships)
    (ha : f.user_a = g.user_a) (hb : f.user_b = g.user_b) : f = g := by
  by_contra hne
  have hR := List.Pairwise.forall
    (fun x y hxy => by
      rcases hxy with h1 | h1
      · exact Or.inl (Ne.symm h1)
      · exact Or.inr (Ne.symm h1)) h hf hg hne
  rcases hR with h1 | h1
  · exact h1 ha
  · exact h1 hb

/-- Under id uniqueness, two rows with the same id are the same row. -/
theorem id_unique_mem {s : Store} (h : UniqueIds s) {f g : Friendship}
    (hf : f ∈ s.friendships) (hg : g ∈ s.friendships)
    (hid : f.id = g.id) : f = g := by
  by_contra hne
  exact List.Pairwise.forall (fun x y hxy => Ne.symm hxy) h hf hg hne hid

/-- A member row is returned by the canonical-pair lookup. -/
theorem qFindFriendship_of_mem {s : Store} (h : UniquePairs s) {f : Friendship}
    (hf : f ∈ s.friendships) :
    qFindFriendship s f.user_a f.user_b = some f := by
  apply find?_eq_some_of_unique hf (by simp)
  intro y hy hpy
  simp only [decide_eq_true_eq] at hpy
  exact pair_unique_mem h hy hf hpy.1 hpy.2

/-- A member row is returned by the id lookup. -/
theorem qFriendshipById_of_mem {s : Store} (h : UniqueIds s) {f : Friendship}
    (hf : f ∈ s.friendships) :
    qFriendshipById s f.id = some f := by
  apply find?_eq_some_of_unique hf (by simp)
  intro y hy hpy
  simp only [decide_eq_true_eq] at hpy
  exact id_unique_mem h hy hf hpy

/-- The canonical-pair lookup fails exactly when no row has the pair. -/
theorem qFindFriendship_eq_none {s : Store} {a b : Nat} :
    qFindFriendship s a b = none ↔
      ∀ f ∈ s.friendships, ¬(f.user_a = a ∧ f.user_b = b) := by
  simp [qFindFriendship, List.find?_eq_none]

/-- The id lookup fails exactly when no row has the id. -/
theorem qFriendshipById_eq_none {s : Store} {fid : Nat} :
    qFriendshipById s fid = none ↔ ∀ f ∈ s.friendships, f.id ≠ fid := by
  simp [qFriendshipById, List.find?_eq_none]

/-! ## Inversion lemmas for the mutating operations -/

/-- The friendship row that a successful invite inserts. -/
def inviteRow (s : Store) (requester target : Nat) (now : String) : Friendship :=
  ⟨s.next_friendship_id, (canonicalPair requester target).1,
   (canonicalPair requester target).2, .pending, requester, now⟩

/-- What a successful invite implies and produces. -/
theorem invite_ok_inversion {s : Store} {r : Nat} {e now : String} {s' : Store}
    (h : invite s r e now = .ok s') :
    normEmail e ≠ "" ∧ isValidEmail (normEmail e) = true ∧
    ∃ t, qFindUserByEmailPublic s (normEmail e) = some t ∧ t.id ≠ r ∧
      qFindFriendship s (canonicalPair r t.id).1 (canonicalPair r t.id).2 = none ∧
      s' = { s with
             friendships := s.friendships ++ [inviteRow s r t.id now],
             next_friendship_id := s.next_friendship_id + 1 } := by
  cases hguard : (decide (normEmail e = "") || !isValidEmail (normEmail e)) with
  | true => simp [invite, hguard] at h
  | false =>
    rw [Bool.or_eq_false_iff] at hguard
    obtain ⟨hemp', hval'⟩ := hguard
    have hemp : normEmail e ≠ "" := of_decide_eq_false hemp'
    have hval : isValidEmail (normEmail e) = true := by simpa using hval'
    refine ⟨hemp, hval, ?_⟩
    cases ht : qFindUserByEmailPublic s (normEmail e) with
    | none => simp [invite, hemp, hval, ht] at h
    | some t =>
      by_cases htid : t.id = r
      · simp [invite, hemp, hval, ht, htid] at h
      · cases hff : qFindFriendship s (canonicalPair r t.id).1 (canonicalPair r t.id).2 with
        | some f0 => simp [invite, hemp, hval, ht, htid, hff] at h
        | none =>
          refine ⟨t, rfl, htid, hff, ?_⟩
          simp [invite, hemp, hval, ht, htid, hff, inviteRow] at h
          exact h.symm

/-- What a successful accept implies and produces. -/
theorem accept_ok_inversion {s : Store} {u fid : Nat} {s' : Store}
    (h : accept s u fid = .ok s') :
    fid ≠ 0 ∧ ∃ row, qFriendshipById s fid = some row ∧
      (row.user_a = u ∨ row.user_b = u) ∧
      s' = { s with
             friendships := s.friendships.map (fun f =>
               if f.id = fid then { f with status := .accepted } else f) } := by
  by_cases hfid : fid = 0
  · simp [accept, hfid] at h
  · refine ⟨hfid, ?_⟩
    cases hrow : qFriendshipById s fid with
    | none => simp [accept, hfid, hrow] at h
    | some row =>
      by_cases hparty : row.user_a ≠ u ∧ row.user_b ≠ u
      · simp [accept, hfid, hrow, hparty] at h
      · rw [Decidable.not_and_iff_or_not, not_not, not_not] at hparty
        refine ⟨row, rfl, hparty, ?_⟩
        have hcond : ¬(row.user_a ≠ u ∧ row.user_b ≠ u) := by
          rcases hparty with h1 | h1
          · exact fun hc => hc.1 h1
          · exact fun hc => hc.2 h1
        simp [accept, hfid, hrow, hcond] at h
        exact h.symm

/-- What a successful cancel/remove implies and produces. -/
theorem remove_ok_inversion {s : Store} {u fid : Nat} {s' : Store}
    (h : remove s u fid = .ok s') :
    fid ≠ 0 ∧ ∃ row, qFriendshipById s fid = some row ∧
      (row.user_a = u ∨ row.user_b = u) ∧
      s' = { s with
             friendships := s.friendships.filter (fun f => decide (f.id ≠ fid)) } := by
  by_cases hfid : fid = 0
  · simp [remove, hfid] at h
  · refine ⟨hfid, ?_⟩
    cases hrow : qFriendshipById s fid with
    | none => simp [remove, hfid, hrow] at h
    | some row =>
      by_cases hparty : row.user_a ≠ u ∧ row.user_b ≠ u
      · simp [remove, hfid, hrow, hparty] at h
      · rw [Decidable.not_and_iff_or_not, not_not, not_not] at hparty
        refine ⟨row, rfl, hparty, ?_⟩
        have hcond : ¬(row.user_a ≠ u ∧ row.user_b ≠ u) := by
          rcases hparty with h1 | h1
          · exact fun hc => hc.1 h1
          · exact fun hc => hc.2 h1
        simp [remove, hfid, hrow, hcond] at h
        simpa using h.symm

/-! ## Preservation of the invariants -/

/-- The accept update keeps `user_a`. -/
theorem acceptUpd_user_a (fid : Nat) (f : Friendship) :
    (if f.id = fid then { f with status := FStatus.accepted } else f).user_a =
      f.user_a := by
  split <;> rfl

/-- The accept update keeps `user_b`. -/
theorem acceptUpd_user_b (fid : Nat) (f : Friendship) :
    (if f.id = fid then { f with status := FStatus.accepted } else f).user_b =
      f.user_b := by
  split <;> rfl

/-- The accept update keeps `id`. -/
theorem acceptUpd_id (fid : Nat) (f : Friendship) :
    (if f.id = fid then { f with status := FStatus.accepted } else f).id =
      f.id := by
  split <;> rfl

/-- The accept update keeps `requested_by`. -/
theorem acceptUpd_requested_by (fid : Nat) (f : Friendship) :
    (if f.id = fid then { f with status := FStatus.accepted } else f).requested_by =
      f.requested_by := by
  split <;> rfl

/-- A successful invite preserves the invariant. -/
theorem wf_invite {s : Store} {r : Nat} {e now : String} {s' : Store}
    (hWf : Wf s) (h : invite s r e now = .ok s') : Wf s' := by
  obtain ⟨hCan, hUP, hUI, hFr, hPos, hPid⟩ := hWf
  obtain ⟨-, -, t, ht, htid, hnone, rfl⟩ := invite_ok_inversion h
  have hcanon : (canonicalPair r t.id).1 < (canonicalPair r t.id).2 := by
    unfold canonicalPair
    rcases Nat.lt_trichotomy r t.id with hlt | heq | hgt
    · simp [hlt]
    · exact absurd heq.symm htid
    · simp [Nat.not_lt.mpr (le_of_lt hgt), hgt]
  refine ⟨?_, ?_, ?_, ?_, Nat.succ_pos _, ?_⟩
  · intro f hf
    rcases List.mem_append.mp hf with hf | hf
    · exact hCan f hf
    · have hfe : f = inviteRow s r t.id now := by simpa using hf
      subst hfe
      exact hcanon
  · simp only [UniquePairs] at hUP ⊢
    rw [List.pairwise_append]
    refine ⟨hUP, List.pairwise_singleton _ _, ?_⟩
    intro f hf g hg
    have hge : g = inviteRow s r t.id now := by simpa using hg
    subst hge
    have hnm := qFindFriendship_eq_none.mp hnone f hf
    rcases Decidable.not_and_iff_or_not.mp hnm with h1 | h1
    · exact Or.inl h1
    · exact Or.inr h1
  · simp only [UniqueIds] at hUI ⊢
    rw [List.pairwise_append]
    refine ⟨hUI, List.pairwise_singleton _ _, ?_⟩
    intro f hf g hg
    have hge : g = inviteRow s r t.id now := by simpa using hg
    subst hge
    exact Nat.ne_of_lt (hFr f hf)
  · intro f hf
    rcases List.mem_append.mp hf with hf | hf
    · exact Nat.lt_succ_of_lt (hFr f hf)
    · have hfe : f = inviteRow s r t.id now := by simpa using hf
      subst hfe
      exact Nat.lt_succ_self _
  · intro f hf
    rcases List.mem_append.mp hf with hf | hf
    · exact hPid f hf
    · have hfe : f = inviteRow s r t.id now := by simpa using hf
      subst hfe
      exact hPos

/-- A successful accept preserves the invariant. -/
theorem wf_accept {s : Store} {u fid : Nat} {s' : Store}
    (hWf : Wf s) (h : accept s u fid = .ok s') : Wf s' := by
  obtain ⟨hCan, hUP, hUI, hFr, hPos, hPid⟩ := hWf
  obtain ⟨-, row, hrow, -, rfl⟩ := accept_ok_inversion h
  refine ⟨?_, ?_, ?_, ?_, hPos, ?_⟩
  · intro f hf
    obtain ⟨g, hg, rfl⟩ := List.mem_map.mp hf
    rw [acceptUpd_user_a, acceptUpd_user_b]
    exact hCan g hg
  · simp only [UniquePairs] at hUP ⊢
    rw [List.pairwise_map]
    refine hUP.imp ?_
    intro a b hab
    rw [acceptUpd_user_a, acceptUpd_user_a, acceptUpd_user_b, acceptUpd_user_b]
    exact hab
  · simp only [UniqueIds] at hUI ⊢
    rw [List.pairwise_map]
    refine hUI.imp ?_
    intro a b hab
    rw [acceptUpd_id, acceptUpd_id]
    exact hab
  · intro f hf
    obtain ⟨g, hg, rfl⟩ := List.mem_map.mp hf
    rw [acceptUpd_id]
    exact hFr g hg
  · intro f hf
    obtain ⟨g, hg, rfl⟩ := List.mem_map.mp hf
    rw [acceptUpd_id]
    exact hPid g hg

/-- A successful cancel/remove preserves the invariant. -/
theorem wf_remove {s : Store} {u fid : Nat} {s' : Store}
    (hWf : Wf s) (h : remove s u fid = .ok s') : Wf s' := by
  obtain ⟨hCan, hUP, hUI, hFr, hPos, hPid⟩ := hWf
  obtain ⟨-, row, hrow, -, rfl⟩ := remove_ok_inversion h
  refine ⟨?_, ?_, ?_, ?_, hPos, ?_⟩
  · intro f hf
    exact hCan f (List.mem_of_mem_filter hf)
  · exact List.Pairwise.sublist (List.filter_sublist _) hUP
  · exact List.Pairwise.sublist (List.filter_sublist _) hUI
  · intro f hf
    exact hFr f (List.mem_of_mem_filter hf)
  · intro f hf
    exact hPid f (List.mem_of_mem_filter hf)

/-- Every operation execution preserves the invariant. -/
theorem wf_execOp {s : Store} (hWf : Wf s) (op : Op) : Wf (execOp s op) := by
  cases op with
  | invite r e now =>
    cases hinv : invite s r e now with
    | ok s' =>
      simpa [execOp, hinv] using wf_invite hWf hinv
    | error _ => simpa [execOp, hinv] using hWf
  | accept u fid =>
    cases hacc : accept s u fid with
    | ok s' => simpa [execOp, hacc] using wf_accept hWf hacc
    | error _ => simpa [execOp, hacc] using hWf
  | remove u fid =>
    cases hrem : remove s u fid with
    | ok s' => simpa [execOp, hrem] using wf_remove hWf hrem
    | error _ => simpa [execOp, hrem] using hWf

/-- Every operation sequence preserves the invariant. -/
theorem wf_execOps {s : Store} (hWf : Wf s) (ops : List Op) :
    Wf (execOps s ops) := by
  induction ops generalizing s with
  | nil => simpa [execOps] using hWf
  | cons op ops ih =>
    exact ih (wf_execOp hWf op)

/-! ## Properties of the canonical pair -/

/-- For distinct inputs the canonical pair is strictly ascending. -/
theorem canonicalPair_fst_lt_snd {u v : Nat} (h : u ≠ v) :
    (canonicalPair u v).1 < (canonicalPair u v).2 := by
  unfold canonicalPair
  rcases Nat.lt_trichotomy u v with h1 | h1 | h1
  · rw [if_pos h1]
    exact h1
  · exact absurd h1 h
  · rw [if_neg (Nat.not_lt.mpr (le_of_lt h1))]
    exact h1

/-- For distinct inputs the canonical pair is symmetric in its arguments. -/
theorem canonicalPair_comm {u v : Nat} (h : u ≠ v) :
    canonicalPair u v = canonicalPair v u := by
  unfold canonicalPair
  rcases Nat.lt_trichotomy u v with h1 | h1 | h1
  · rw [if_pos h1, if_neg (Nat.not_lt.mpr (le_of_lt h1))]
  · exact absurd h1 h
  · rw [if_neg (Nat.not_lt.mpr (le_of_lt h1)), if_pos h1]

/-! ## At most one row per unordered pair -/

/-- All rows stored for the unordered pair of `u` and `v`, in either
orientation. -/
def pairRows (s : Store) (u v : Nat) : List Friendship :=
  s.friendships.filter (fun f =>
    decide ((f.user_a = u ∧ f.user_b = v) ∨ (f.user_a = v ∧ f.user_b = u)))

/-- A filter over a list that is pairwise-separated by a relation excluding
two selected elements keeps at most one element. -/
theorem length_filter_le_one {α : Type} {p : α → Bool} {l : List α}
    {R : α → α → Prop} (hPW : l.Pairwise R)
    (hno : ∀ a ∈ l, ∀ b ∈ l, p a = true → p b = true → R a b → False) :
    (l.filter p).length ≤ 1 := by
  induction l with
  | nil => simp
  | cons x l ih =>
    cases hPW with
    | cons hx hPW' =>
      by_cases hpx : p x = true
      · rw [List.filter_cons_of_pos hpx]
        have hnil : l.filter p = [] := by
          rw [List.filter_eq_nil_iff]
          intro a ha hpa
          exact hno x (List.mem_cons_self x l) a (List.mem_cons_of_mem x ha)
            hpx hpa (hx a ha)
        rw [hnil]
        simp
      · rw [List.filter_cons_of_neg (by simpa using hpx)]
        exact ih hPW' (fun a ha b hb hpa hpb hR =>
          hno a (List.mem_cons_of_mem x ha) b (List.mem_cons_of_mem x hb)
            hpa hpb hR)

/-- Under the invariant, at most one row per unordered pair is stored. -/
theorem pairRows_le_one {s : Store} (hWf : Wf s) (u v : Nat) :
    (pairRows s u v).length ≤ 1 := by
  obtain ⟨hCan, hUP, -, -, -, -⟩ := hWf
  apply length_filter_le_one hUP
  intro a ha b hb hpa hpb hR
  simp only [decide_eq_true_eq] at hpa hpb
  have hca := hCan a ha
  have hcb := hCan b hb
  rcases hpa with ⟨ha1, ha2⟩ | ⟨ha1, ha2⟩ <;>
    rcases hpb with ⟨hb1, hb2⟩ | ⟨hb1, hb2⟩ <;>
      rcases hR with hR | hR <;> omega

/-- The invariant is checkable on concrete stores. -/
instance (s : Store) : Decidable (Wf s) := by
  unfold Wf CanonicalRows UniquePairs UniqueIds FreshIds
  infer_instance

/-! ## Concrete example data (used by the witnesses) -/

/-- Three registered users. -/
def exUsers : List User :=
  [⟨1, "alice@example.com", "Alice"⟩, ⟨2, "bob@example.com", "Bob"⟩,
   ⟨3, "carol@example.com", "Carol"⟩]

/-- A store with no friendship rows. -/
def exStore0 : Store :=
  ⟨exUsers, [], [], [], [], 1, 1, 1⟩

/-- The store after Alice (id 1) invited Bob (id 2). -/
def exPending : Store :=
  ⟨exUsers, [⟨1, 1, 2, .pending, 1, "t1"⟩], [], [], [], 2, 1, 1⟩

/-- The store after the invite got accepted. -/
def exAccepted : Store :=
  ⟨exUsers, [⟨1, 1, 2, .accepted, 1, "t1"⟩], [], [], [], 2, 1, 1⟩

/-! ## The claims -/

/-- Claim C8: for all users u ≠ v, `canonicalPair(u,v) = canonicalPair(v,u)`,
and the resulting pair is sorted strictly ascending. -/
theorem canonicalPair_comm_and_sorted (u v : Nat) (h : u ≠ v) :
    canonicalPair u v = canonicalPair v u ∧
      (canonicalPair u v).1 < (canonicalPair u v).2 :=
  ⟨canonicalPair_comm h, canonicalPair_fst_lt_snd h⟩

/-- Witness for C8 at the concrete pair (2, 5). -/
theorem canonicalPair_comm_and_sorted_witness :
    canonicalPair 2 5 = canonicalPair 5 2 ∧
      (canonicalPair 2 5).1 < (canonicalPair 2 5).2 :=
  canonicalPair_comm_and_sorted 2 5 (by decide)

/-- Claim C1: starting from any well-formed store, after any sequence of
invite/accept/remove operations at most one friendship row exists per
unordered pair; and after a successful invite, a second invite in either
direction (with a well-formed email resolving to the other party) returns
Conflict, leaving the store unchanged. -/
theorem invite_at_most_one_row :
    (∀ s : Store, Wf s → ∀ ops : List Op, ∀ u v : Nat,
        (pairRows (execOps s ops) u v).length ≤ 1) ∧
    (∀ (s : Store) (r : Nat) (e now : String) (s' : Store) (t : User), Wf s →
      invite s r e now = .ok s' →
      qFindUserByEmailPublic s (normEmail e) = some t →
      ∀ (r2 : Nat) (e2 now2 : String) (t2 : User),
        normEmail e2 ≠ "" → isValidEmail (normEmail e2) = true →
        qFindUserByEmailPublic s' (normEmail e2) = some t2 →
        ((r2 = r ∧ t2.id = t.id) ∨ (r2 = t.id ∧ t2.id = r)) →
        invite s' r2 e2 now2 = .error .Conflict ∧
          execOp s' (.invite r2 e2 now2) = s') := by
  constructor
  · intro s hWf ops u v
    exact pairRows_le_one (wf_execOps hWf ops) u v
  · intro s r e now s' t hWf hok hres r2 e2 now2 t2 hne2 hval2 hres2 hdir
    obtain ⟨-, -, t0, ht0, htid, hnone, hs'⟩ := invite_ok_inversion hok
    rw [hres] at ht0
    have htt : t = t0 := Option.some.inj ht0
    subst htt
    have ht2ne : ¬ t2.id = r2 := by
      rcases hdir with ⟨h1, h2⟩ | ⟨h1, h2⟩
      · rw [h1, h2]
        exact htid
      · rw [h1, h2]
        exact Ne.symm htid
    have hpair : canonicalPair r2 t2.id = canonicalPair r t.id := by
      rcases hdir with ⟨h1, h2⟩ | ⟨h1, h2⟩
      · rw [h1, h2]
      · rw [h1, h2]
        exact canonicalPair_comm htid
    have hfound : qFindFriendship s' (canonicalPair r2 t2.id).1
        (canonicalPair r2 t2.id).2 = some (inviteRow s r t.id now) := by
      rw [hpair, hs']
      unfold qFindFriendship
      simp only [List.find?_append]
      rw [show (s.friendships.find? (fun f =>
            decide (f.user_a = (canonicalPair r t.id).1 ∧
                    f.user_b = (canonicalPair r t.id).2))) = none from hnone]
      simp [inviteRow]
    have hconf : invite s' r2 e2 now2 = .error .Conflict := by
      simp [invite, hne2, hval2, hres2, ht2ne, hfound]
    exact ⟨hconf, by simp [execOp, hconf]⟩

/-- Witness for C1: inviting Bob from the empty store keeps at most one row
for the pair, and Bob inviting Alice back hits Conflict. -/
theorem invite_at_most_one_row_witness :
    (pairRows (execOps exStore0 [.invite 1 "bob@example.com" "t1"]) 1 2).length ≤ 1 ∧
    invite exPending 2 "alice@example.com" "t2" = .error .Conflict := by
  constructor
  · exact invite_at_most_one_row.1 exStore0 (by decide)
      [.invite 1 "bob@example.com" "t1"] 1 2
  · exact (invite_at_most_one_row.2 exStore0 1 "bob@example.com" "t1" exPending
      ⟨2, "bob@example.com", "Bob"⟩ (by decide) (by rfl) (by rfl)
      2 "alice@example.com" "t2" ⟨1, "alice@example.com", "Alice"⟩
      (by decide) (by rfl) (by rfl) (Or.inr ⟨rfl, rfl⟩)).1

/-- Claim C3: for a well-formed target email, invite returns NotFound when no
user has the email, InvalidOperation when the target is the requester,
Conflict when a row already exists for the canonical pair, and otherwise
inserts exactly one pending row requested by the requester. -/
theorem invite_case_analysis (s : Store) (r : Nat) (e now : String)
    (hne : normEmail e ≠ "") (hval : isValidEmail (normEmail e) = true) :
    (qFindUserByEmailPublic s (normEmail e) = none →
      invite s r e now = .error .NotFound) ∧
    (∀ t, qFindUserByEmailPublic s (normEmail e) = some t → t.id = r →
      invite s r e now = .error .InvalidOperation) ∧
    (∀ t f, qFindUserByEmailPublic s (normEmail e) = some t → t.id ≠ r →
      qFindFriendship s (canonicalPair r t.id).1 (canonicalPair r t.id).2 =
        some f →
      invite s r e now = .error .Conflict) ∧
    (∀ t, qFindUserByEmailPublic s (normEmail e) = some t → t.id ≠ r →
      qFindFriendship s (canonicalPair r t.id).1 (canonicalPair r t.id).2 =
        none →
      invite s r e now = .ok { s with
        friendships := s.friendships ++ [inviteRow s r t.id now],
        next_friendship_id := s.next_friendship_id + 1 }) := by
  refine ⟨?_, ?_, ?_, ?_⟩
  · intro hres
    simp [invite, hne, hval, hres]
  · intro t hres htid
    simp [invite, hne, hval, hres, htid]
  · intro t f hres htid hff
    simp [invite, hne, hval, hres, htid, hff]
  · intro t hres htid hff
    simp [invite, hne, hval, hres, htid, hff, inviteRow]

/-- Witness for C3: Alice invites Bob from the fresh store and exactly the
expected pending row is inserted. -/
theorem invite_case_analysis_witness :
    invite exStore0 1 "bob@example.com" "t1" = .ok exPending := by
  have h := (invite_case_analysis exStore0 1 "bob@example.com" "t1"
      (by decide) (by rfl)).2.2.2 ⟨2, "bob@example.com", "Bob"⟩
      (by rfl) (by decide) (by rfl)
  simpa using h

/-- Claim C5: accept returns NotFound when no row carries the id, Forbidden
when the caller is neither party, and otherwise (for either party, including
the original requester) marks the row accepted and returns ok. -/
theorem accept_case_analysis (s : Store) (u fid : Nat) (hfid : fid ≠ 0) :
    ((∀ f ∈ s.friendships, f.id ≠ fid) → accept s u fid = .error .NotFound) ∧
    (∀ row, qFriendshipById s fid = some row → row.user_a ≠ u →
      row.user_b ≠ u → accept s u fid = .error .Forbidden) ∧
    (∀ row, qFriendshipById s fid = some row →
      (row.user_a = u ∨ row.user_b = u) →
      accept s u fid = .ok { s with
        friendships := s.friendships.map (fun f =>
          if f.id = fid then { f with status := FStatus.accepted } else f) }) := by
  refine ⟨?_, ?_, ?_⟩
  · intro habs
    have hnone : qFriendshipById s fid = none := qFriendshipById_eq_none.mpr habs
    simp [accept, hfid, hnone]
  · intro row hrow ha hb
    simp [accept, hfid, hrow, ha, hb]
  · intro row hrow hparty
    have hcond : ¬(row.user_a ≠ u ∧ row.user_b ≠ u) := by
      rcases hparty with h1 | h1
      · exact fun hc => hc.1 h1
      · exact fun hc => hc.2 h1
    simp [accept, hfid, hrow, hcond]

/-- Witness for C5: Bob (the non-requester) accepts the pending invite. -/
theorem accept_case_analysis_witness :
    accept exPending 2 1 = .ok exAccepted := by
  have h := (accept_case_analysis exPending 2 1 (by decide)).2.2
      ⟨1, 1, 2, .pending, 1, "t1"⟩ (by rfl) (Or.inr rfl)
  simpa using h

/-- Counterexample to claim C4: the original requester (user 1, who has
`requested_by = 1` on the pending row) successfully performs the
pending-to-accepted transition, which the claim says never occurs. -/
theorem accept_by_requester_counterexample :
    (⟨1, 1, 2, .pending, 1, "t1"⟩ : Friendship) ∈ exPending.friendships ∧
    (⟨1, 1, 2, .pending, 1, "t1"⟩ : Friendship).requested_by = 1 ∧
    accept exPending 1 1 = .ok exAccepted ∧
    (⟨1, 1, 2, .accepted, 1, "t1"⟩ : Friendship) ∈ exAccepted.friendships := by
  refine ⟨by decide, rfl, by rfl, by decide⟩

/-- Claim C4 (amended): the only friendship-table changes are: accept, by
either party on the row (including the original requester), rewriting the
row's status to accepted; cancel/remove, by either party, deleting the row;
and invite appending a fresh pending row.  Failed operations change nothing
(see `execOp`). -/
theorem friendship_transitions (s : Store) :
    (∀ w fid s', accept s w fid = .ok s' →
      ∃ f, f ∈ s.friendships ∧ f.id = fid ∧ (f.user_a = w ∨ f.user_b = w) ∧
        s'.friendships = s.friendships.map (fun g =>
          if g.id = fid then { g with status := FStatus.accepted } else g)) ∧
    (∀ w fid s', remove s w fid = .ok s' →
      ∃ f, f ∈ s.friendships ∧ f.id = fid ∧ (f.user_a = w ∨ f.user_b = w) ∧
        s'.friendships = s.friendships.filter (fun g => decide (g.id ≠ fid))) ∧
    (∀ r e now s', invite s r e now = .ok s' →
      ∃ t, qFindUserByEmailPublic s (normEmail e) = some t ∧ t.id ≠ r ∧
        s'.friendships = s.friendships ++ [inviteRow s r t.id now]) := by
  refine ⟨?_, ?_, ?_⟩
  · intro w fid s' h
    obtain ⟨-, row, hrow, hparty, rfl⟩ := accept_ok_inversion h
    refine ⟨row, List.mem_of_find?_eq_some hrow, ?_, hparty, rfl⟩
    have := List.find?_some hrow
    simpa using this
  · intro w fid s' h
    obtain ⟨-, row, hrow, hparty, rfl⟩ := remove_ok_inversion h
    refine ⟨row, List.mem_of_find?_eq_some hrow, ?_, hparty, rfl⟩
    have := List.find?_some hrow
    simpa using this
  · intro r e now s' h
    obtain ⟨-, -, t, ht, htid, -, rfl⟩ := invite_ok_inversion h
    exact ⟨t, ht, htid, rfl⟩

/-- Witness for C4 (amended) at a concrete accept by the non-requester. -/
theorem friendship_transitions_witness :
    ∃ f, f ∈ exPending.friendships ∧ f.id = 1 ∧
      (f.user_a = 2 ∨ f.user_b = 2) ∧
      exAccepted.friendships = exPending.friendships.map (fun g =>
        if g.id = 1 then { g with status := FStatus.accepted } else g) :=
  (friendship_transitions exPending).1 2 1 exAccepted (by rfl)

/-! ## The authorization predicate -/

/-- For ascending inputs the canonical pair is the identity. -/
theorem canonicalPair_of_lt {a b : Nat} (h : a < b) :
    canonicalPair a b = (a, b) := by
  unfold canonicalPair
  rw [if_pos h]

/-- `areFriends` holds exactly when an accepted row is stored for the
canonical pair. -/
theorem areFriends_iff {s : Store} (hWf : Wf s) (u v : Nat) :
    areFriends s u v = true ↔
      ∃ f ∈ s.friendships, (f.user_a, f.user_b) = canonicalPair u v ∧
        f.status = FStatus.accepted := by
  constructor
  · intro h
    simp only [areFriends] at h
    cases hq : qFindFriendship s (canonicalPair u v).1 (canonicalPair u v).2 with
    | none => rw [hq] at h; cases h
    | some f =>
      rw [hq] at h
      refine ⟨f, List.mem_of_find?_eq_some hq, ?_, of_decide_eq_true h⟩
      have hp := List.find?_some hq
      simp only [decide_eq_true_eq] at hp
      exact Prod.ext hp.1 hp.2
  · rintro ⟨f, hf, hpair, hacc⟩
    simp only [areFriends]
    have hq : qFindFriendship s (canonicalPair u v).1 (canonicalPair u v).2 =
        some f := by
      rw [← hpair]
      exact qFindFriendship_of_mem hWf.2.1 hf
    rw [hq]
    simp [hacc]

/-- While the pair's row is pending, `areFriends` is false. -/
theorem areFriends_false_of_pending {s : Store} (hWf : Wf s) {u v : Nat}
    {f : Friendship} (hf : f ∈ s.friendships)
    (hpair : (f.user_a, f.user_b) = canonicalPair u v)
    (hpend : f.status = FStatus.pending) : areFriends s u v = false := by
  cases h : areFriends s u v with
  | false => rfl
  | true =>
    rcases (areFriends_iff hWf u v).mp h with ⟨g, hg, hgp, hgacc⟩
    have hcomp : (g.user_a, g.user_b) = (f.user_a, f.user_b) :=
      hgp.trans hpair.symm
    simp only [Prod.mk.injEq] at hcomp
    have hgf : g = f := pair_unique_mem hWf.2.1 hg hf hcomp.1 hcomp.2
    rw [hgf, hpend] at hgacc
    cases hgacc

/-- After a successful accept of a member row, `areFriends` holds for its
pair. -/
theorem areFriends_after_accept {s : Store} {w fid : Nat} {s' : Store}
    {f : Friendship} (hWf : Wf s) (hf : f ∈ s.friendships) (hid : f.id = fid)
    (h : accept s w fid = .ok s') :
    areFriends s' f.user_a f.user_b = true := by
  have hWf' := wf_accept hWf h
  obtain ⟨-, row, hrow, -, rfl⟩ := accept_ok_inversion h
  apply (areFriends_iff hWf' f.user_a f.user_b).mpr
  refine ⟨if f.id = fid then { f with status := FStatus.accepted } else f,
    ?_, ?_, ?_⟩
  · exact List.mem_map_of_mem _ hf
  · rw [acceptUpd_user_a, acceptUpd_user_b,
      canonicalPair_of_lt (hWf.1 f hf)]
  · rw [if_pos hid]

/-- After a successful remove of a member row, `areFriends` no longer holds
for its pair. -/
theorem areFriends_after_remove {s : Store} {w fid : Nat} {s' : Store}
    {f : Friendship} (hWf : Wf s) (hf : f ∈ s.friendships) (hid : f.id = fid)
    (h : remove s w fid = .ok s') :
    areFriends s' f.user_a f.user_b = false := by
  have hWf' := wf_remove hWf h
  obtain ⟨-, row, hrow, -, rfl⟩ := remove_ok_inversion h
  cases haf : areFriends { s with
      friendships := s.friendships.filter (fun g => decide (g.id ≠ fid)) }
      f.user_a f.user_b with
  | false => rfl
  | true =>
    rcases (areFriends_iff hWf' f.user_a f.user_b).mp haf with ⟨g, hg, hgp, -⟩
    have hgmem : g ∈ s.friendships := List.mem_of_mem_filter hg
    have hgid : g.id ≠ fid := by
      have := (List.mem_filter.mp hg).2
      exact of_decide_eq_true this
    rw [canonicalPair_of_lt (hWf.1 f hf)] at hgp
    simp only [Prod.mk.injEq] at hgp
    have hgf : g = f := pair_unique_mem hWf.2.1 hgmem hf hgp.1 hgp.2
    rw [hgf] at hgid
    exact (hgid hid).elim

/-- The DM read gate: no accepted friendship means Forbidden. -/
theorem dmList_forbidden {s : Store} {u v limit offset : Nat} (hv : v ≠ 0)
    (h : areFriends s u v = false) :
    dmList s u v limit offset = .error .Forbidden := by
  simp [dmList, hv, h]

/-- The DM send gate: no accepted friendship means Forbidden. -/
theorem dmSend_forbidden {s : Store} {u v : Nat} {text now : String}
    (hv : v ≠ 0) (htext : trimString text ≠ "")
    (h : areFriends s u v = false) :
    dmSend s u v text now = .error .Forbidden := by
  simp [dmSend, hv, htext, h]

/-- The profile gate: no accepted friendship means Forbidden. -/
theorem profileView_forbidden {s : Store} {u v : Nat} (hv : v ≠ 0)
    (h : areFriends s u v = false) :
    profileView s u v = .error .Forbidden := by
  simp [profileView, hv, h]

/-- Claim C2: `areFriends` holds exactly when an accepted row is stored for
the canonical pair; it is false while the row is pending, true after accept,
false after remove; and DM read, DM send and profile view all return
Forbidden whenever it is false. -/
theorem areFriends_gate :
    (∀ (s : Store) (u v : Nat), Wf s → (areFriends s u v = true ↔
      ∃ f ∈ s.friendships, (f.user_a, f.user_b) = canonicalPair u v ∧
        f.status = FStatus.accepted)) ∧
    (∀ (s : Store) (u v : Nat) (f : Friendship), Wf s → f ∈ s.friendships →
      (f.user_a, f.user_b) = canonicalPair u v → f.status = FStatus.pending →
      areFriends s u v = false) ∧
    (∀ (s : Store) (w fid : Nat) (s' : Store) (f : Friendship), Wf s →
      f ∈ s.friendships → f.id = fid → accept s w fid = .ok s' →
      areFriends s' f.user_a f.user_b = true) ∧
    (∀ (s : Store) (w fid : Nat) (s' : Store) (f : Friendship), Wf s →
      f ∈ s.friendships → f.id = fid → remove s w fid = .ok s' →
      areFriends s' f.user_a f.user_b = false) ∧
    (∀ (s : Store) (u v limit offset : Nat), v ≠ 0 →
      areFriends s u v = false →
      dmList s u v limit offset = .error .Forbidden) ∧
    (∀ (s : Store) (u v : Nat) (text now : String), v ≠ 0 →
      trimString text ≠ "" → areFriends s u v = false →
      dmSend s u v text now = .error .Forbidden) ∧
    (∀ (s : Store) (u v : Nat), v ≠ 0 → areFriends s u v = false →
      profileView s u v = .error .Forbidden) :=
  ⟨fun s u v hWf => areFriends_iff hWf u v,
   fun s u v f hWf hf hp hpend => areFriends_false_of_pending hWf hf hp hpend,
   fun s w fid s' f hWf hf hid h => areFriends_after_accept hWf hf hid h,
   fun s w fid s' f hWf hf hid h => areFriends_after_remove hWf hf hid h,
   fun s u v limit offset hv h => dmList_forbidden hv h,
   fun s u v text now hv ht h => dmSend_forbidden hv ht h,
   fun s u v hv h => profileView_forbidden hv h⟩

/-- Witness for C2: accept flips the predicate to true on the concrete store,
and the profile view of a merely-pending pair is Forbidden. -/
theorem areFriends_gate_witness :
    areFriends exAccepted 1 2 = true ∧
    profileView exPending 1 2 = .error .Forbidden := by
  constructor
  · exact areFriends_gate.2.2.1 exPending 2 1 exAccepted
      ⟨1, 1, 2, .pending, 1, "t1"⟩ (by decide) (by decide) rfl (by rfl)
  · exact areFriends_gate.2.2.2.2.2.2 exPending 1 2 (by decide) (by rfl)

/-- Counterexample to claim C6: no user with id 5 exists and no friendship
exists, yet the profile view returns Forbidden, not the NotFound the claim
requires when the target user is missing. -/
theorem profile_forbidden_counterexample :
    (∀ u ∈ exStore0.users, u.id ≠ 5) ∧
    profileView exStore0 1 5 = .error .Forbidden ∧
    profileView exStore0 1 5 ≠ .error .NotFound := by
  refine ⟨by decide, by rfl, ?_⟩
  intro h
  have h' : profileView exStore0 1 5 = .error .Forbidden := by rfl
  rw [h'] at h
  exact ApiErr.noConfusion (Except.error.inj h)

/-- Claim C6 (amended): with no accepted friendship the profile view returns
Forbidden regardless of whether the target user exists (the friendship gate
runs before the user lookup); NotFound arises only when the gate passes but
no user row with the id exists; otherwise the profile payload is returned. -/
theorem profile_view_cases (s : Store) (u v : Nat) (hv : v ≠ 0) :
    (areFriends s u v = false → profileView s u v = .error .Forbidden) ∧
    (areFriends s u v = true → qFindUserPublicById s v = none →
      profileView s u v = .error .NotFound) ∧
    (areFriends s u v = true → ∀ p, qFindUserPublicById s v = some p →
      profileView s u v = .ok ⟨p, publicGoalsOf s v, recentFeedOf s v⟩) := by
  refine ⟨?_, ?_, ?_⟩
  · intro h
    exact profileView_forbidden hv h
  · intro h hnone
    simp [profileView, hv, h, hnone]
  · intro h p hp
    simp [profileView, hv, h, hp]

/-- Witness for C6 (amended): the profile of an accepted friend is served. -/
theorem profile_view_cases_witness :
    profileView exAccepted 1 2 = .ok ⟨⟨2, "bob@example.com", "Bob"⟩,
      publicGoalsOf exAccepted 2, recentFeedOf exAccepted 2⟩ :=
  (profile_view_cases exAccepted 1 2 (by decide)).2.2 (by rfl)
    ⟨2, "bob@example.com", "Bob"⟩ (by rfl)

/-- Claim C7: a party of a friendship row can always remove it, whatever its
status; afterwards no row carries that id, and a fresh invite between the two
users succeeds. -/
theorem remove_then_invite (s : Store) (hWf : Wf s) (w : Nat) (f : Friendship)
    (hf : f ∈ s.friendships) (hparty : f.user_a = w ∨ f.user_b = w)
    (e now : String) (t : User)
    (hne : normEmail e ≠ "") (hval : isValidEmail (normEmail e) = true)
    (ht : qFindUserByEmailPublic s (normEmail e) = some t)
    (htid : t.id = f.user_b) :
    ∃ s', remove s w f.id = .ok s' ∧ (∀ g ∈ s'.friendships, g.id ≠ f.id) ∧
      ∃ s'', invite s' f.user_a e now = .ok s'' := by
  obtain ⟨hCan, hUP, hUI, hFr, hPos, hPid⟩ := hWf
  have hfid0 : f.id ≠ 0 := (hPid f hf).ne'
  have hrow : qFriendshipById s f.id = some f := qFriendshipById_of_mem hUI hf
  have hcond : ¬(f.user_a ≠ w ∧ f.user_b ≠ w) := by
    rcases hparty with h1 | h1
    · exact fun hc => hc.1 h1
    · exact fun hc => hc.2 h1
  have hrm : remove s w f.id = .ok { s with
      friendships := s.friendships.filter (fun g => decide (g.id ≠ f.id)) } := by
    simp [remove, hfid0, hrow, hcond]
  refine ⟨_, hrm, ?_, ?_⟩
  · intro g hg
    exact of_decide_eq_true (List.mem_filter.mp hg).2
  · have htne : t.id ≠ f.user_a := by
      rw [htid]
      exact (hCan f hf).ne'
    have hcp : canonicalPair f.user_a t.id = (f.user_a, f.user_b) := by
      rw [htid]
      exact canonicalPair_of_lt (hCan f hf)
    have hff : qFindFriendship { s with
        friendships := s.friendships.filter (fun g => decide (g.id ≠ f.id)) }
        (canonicalPair f.user_a t.id).1 (canonicalPair f.user_a t.id).2 =
        none := by
      rw [hcp]
      apply qFindFriendship_eq_none.mpr
      intro g hg hpg
      have hgmem : g ∈ s.friendships := List.mem_of_mem_filter hg
      have hgid : g.id ≠ f.id := of_decide_eq_true (List.mem_filter.mp hg).2
      exact hgid (congrArg Friendship.id
        (pair_unique_mem hUP hgmem hf hpg.1 hpg.2))
    cases hres : invite { s with
        friendships := s.friendships.filter (fun g => decide (g.id ≠ f.id)) }
        f.user_a e now with
    | ok s2 => exact ⟨s2, rfl⟩
    | error err =>
      exfalso
      have ht' : qFindUserByEmailPublic { s with
          friendships := s.friendships.filter (fun g => decide (g.id ≠ f.id)) }
          (normEmail e) = some t := ht
      have hff' := hff
      simp only [decide_not] at ht' hff'
      simp [invite, hne, hval, ht', htne, hff'] at hres

/-- Witness for C7: Bob removes the accepted friendship and Alice can invite
him again. -/
theorem remove_then_invite_witness :
    ∃ s', remove exAccepted 2 1 = .ok s' ∧ (∀ g ∈ s'.friendships, g.id ≠ 1) ∧
      ∃ s'', invite s' 1 "bob@example.com" "t3" = .ok s'' :=
  remove_then_invite exAccepted (by decide) 2 ⟨1, 1, 2, .accepted, 1, "t1"⟩
    (by decide) (Or.inr rfl) "bob@example.com" "t3"
    ⟨2, "bob@example.com", "Bob"⟩ (by decide) (by rfl) (by rfl) rfl

/-- Claim C10: publishing a goal id that does not exist or is not owned by the
caller succeeds with ok while updating no goal row and inserting no feed
post (the store is returned unchanged). -/
theorem publish_unowned_goal_noop (s : Store) (u gid : Nat) (now : String)
    (hg : gid ≠ 0)
    (habs : ∀ g ∈ s.goals, ¬(g.id = gid ∧ g.user_id = u)) :
    publishGoal s u gid now = .ok s := by
  have h1 : ∀ a ∈ s.goals,
      (if a.id = gid ∧ a.user_id = u then { a with is_public := true } else a) =
        (fun (g : Goal) => g) a :=
    fun a ha => if_neg (habs a ha)
  have hmap : s.goals.map (fun (g : Goal) =>
      if g.id = gid ∧ g.user_id = u then { g with is_public := true } else g) =
      s.goals := by
    rw [List.map_congr_left h1, List.map_id']
  have hfind : s.goals.find?
      (fun g => decide (g.id = gid) && decide (g.user_id = u)) = none :=
    List.find?_eq_none.mpr (fun x hx => by simpa using habs x hx)
  simp [publishGoal, hg, hmap, hfind]

/-- Witness for C10: publishing the nonexistent goal 7 in the fresh store. -/
theorem publish_unowned_goal_noop_witness :
    publishGoal exStore0 1 7 "t9" = .ok exStore0 :=
  publish_unowned_goal_noop exStore0 1 7 "t9" (by decide) (by decide)

/-! ## The friends listing -/

/-- Unfolding of a successful annotation. -/
theorem friendAnnotate_id {s : Store} {me : Nat} {f : Friendship}
    {en : FriendEntry} (h : friendAnnotate s me f = some en) : en.id = f.id := by
  simp only [friendAnnotate, Option.map_eq_some'] at h
  obtain ⟨fr, -, hmk⟩ := h
  rw [← hmk]

/-- Claim C9: the friends listing contains exactly the rows touching the
user, each annotated with the other party's id, name and email and the
`canAccept` flag `status = pending ∧ requested_by ≠ me`, ordered by
descending row id (ids are assigned in creation order, so the most recently
created row comes first). -/
theorem listFriends_spec (s : Store) (me : Nat) (hUI : UniqueIds s)
    (hFK : ∀ f ∈ s.friendships, (f.user_a = me ∨ f.user_b = me) →
       ∃ u ∈ s.users, u.id = otherParty me f) :
    (∀ en ∈ listFriends s me, ∃ f ∈ s.friendships,
      (f.user_a = me ∨ f.user_b = me) ∧ ∃ fr ∈ s.users,
        fr.id = otherParty me f ∧
        en = ⟨f.id, otherParty me f, fr.name, fr.email, f.status,
              f.requested_by,
              decide (f.status = FStatus.pending ∧ f.requested_by ≠ me)⟩) ∧
    (∀ f ∈ s.friendships, (f.user_a = me ∨ f.user_b = me) →
      ∃ en ∈ listFriends s me, en.id = f.id) ∧
    ((listFriends s me).map FriendEntry.id).Pairwise (fun a b => b < a) := by
  refine ⟨?_, ?_, ?_⟩
  · intro en hen
    simp only [listFriends, List.mem_filterMap] at hen
    obtain ⟨f, hfmem, hann⟩ := hen
    rw [List.mem_mergeSort] at hfmem
    have hf := List.mem_of_mem_filter hfmem
    have htouch : f.user_a = me ∨ f.user_b = me :=
      of_decide_eq_true (List.mem_filter.mp hfmem).2
    simp only [friendAnnotate, Option.map_eq_some'] at hann
    obtain ⟨fr, hfr, hmk⟩ := hann
    have hfr' : s.users.find? (fun x => decide (x.id = otherParty me f)) =
        some fr := hfr
    have hp := List.find?_some hfr'
    exact ⟨f, hf, htouch, fr, List.mem_of_find?_eq_some hfr',
      of_decide_eq_true hp, hmk.symm⟩
  · intro f hf htouch
    obtain ⟨u0, hu0, hid0⟩ := hFK f hf htouch
    have hsome : (qFindUserPublicById s (otherParty me f)).isSome := by
      apply List.find?_isSome.mpr
      exact ⟨u0, hu0, by simp [hid0]⟩
    obtain ⟨fr, hfr⟩ := Option.isSome_iff_exists.mp hsome
    refine ⟨⟨f.id, otherParty me f, fr.name, fr.email, f.status,
      f.requested_by,
      decide (f.status = FStatus.pending ∧ f.requested_by ≠ me)⟩, ?_, rfl⟩
    simp only [listFriends, List.mem_filterMap]
    refine ⟨f, ?_, ?_⟩
    · rw [List.mem_mergeSort]
      exact List.mem_filter.mpr ⟨hf, by simpa using htouch⟩
    · simp [friendAnnotate, hfr]
  · have htrans : ∀ a b c : Friendship, friendshipIdDesc a b →
        friendshipIdDesc b c → friendshipIdDesc a c := by
      intro a b c hab hbc
      unfold friendshipIdDesc at *
      simp only [decide_eq_true_eq] at *
      omega
    have htot : ∀ a b : Friendship,
        friendshipIdDesc a b || friendshipIdDesc b a := by
      intro a b
      unfold friendshipIdDesc
      rcases Nat.le_total b.id a.id with h | h <;> simp [h]
    have hsorted := List.sorted_mergeSort htrans htot
      (s.friendships.filter (fun f => decide (f.user_a = me ∨ f.user_b = me)))
    have hne : ((s.friendships.filter (fun f =>
        decide (f.user_a = me ∨ f.user_b = me))).mergeSort
          friendshipIdDesc).Pairwise (fun a b : Friendship => a.id ≠ b.id) :=
      (List.Perm.pairwise_iff (fun h => Ne.symm h)
        (List.mergeSort_perm _ _)).mpr (hUI.filter _)
    have hstrict : ((s.friendships.filter (fun f =>
        decide (f.user_a = me ∨ f.user_b = me))).mergeSort
          friendshipIdDesc).Pairwise
        (fun a b : Friendship => b.id < a.id) := by
      refine (hsorted.and hne).imp ?_
      rintro a b ⟨h1, h2⟩
      have h1' : b.id ≤ a.id := of_decide_eq_true h1
      exact Nat.lt_of_le_of_ne h1' (Ne.symm h2)
    simp only [listFriends]
    rw [List.pairwise_map]
    refine List.pairwise_filterMap.mpr (hstrict.imp ?_)
    intro a b hab x hx y hy
    rw [friendAnnotate_id (Option.mem_def.mp hx),
      friendAnnotate_id (Option.mem_def.mp hy)]
    exact hab

/-- Witness for C9: Alice's listing contains an entry for the accepted row. -/
theorem listFriends_spec_witness :
    ∃ en ∈ listFriends exAccepted 1, en.id = 1 :=
  (listFriends_spec exAccepted 1 (by decide : Wf exAccepted).2.2.1
    (by decide)).2.1 ⟨1, 1, 2, .accepted, 1, "t1"⟩ (by decide) (Or.inl rfl)

end Web
